import Mathlib

/-!
Shallow embedding of `codex-rs/core/src/steering.rs` (steering file
discovery and loading) and proofs about it.

Paths are modelled as lists of components (`[]` is the filesystem root);
file contents are lists of bytes (`Nat`, each < 256 in practice); the
filesystem is an explicit value describing, for every path, what the
relevant system calls return.  Rust's `String::from_utf8` is modelled by
`utf8Decode`, including `valid_up_to` and `error_len` of `Utf8Error`.
-/

namespace Steering

/-- Filesystem paths as component lists; `[]` is the root `/`. -/
abbrev FsPath := List String

/-- Model of `SteeringScope`. -/
inductive SteeringScope where
  | Global
  | Project
deriving Repr, DecidableEq

/-- Model of `SteeringScope::as_str`. -/
def SteeringScope.as_str : SteeringScope → String
  | .Global => "global"
  | .Project => "project"

/-- Model of `DirState`. -/
inductive DirState where
  | Missing
  | Present
  | Error (msg : String)
deriving Repr, DecidableEq

/-- Model of `SteeringFile` (a discovered candidate). -/
structure SteeringFile where
  scope : SteeringScope
  path : FsPath
  display_path : String
deriving Repr, DecidableEq

/-- Model of `SteeringDiscovery`. -/
structure SteeringDiscovery where
  codex_home : FsPath
  repo_root : FsPath
  global_dir : FsPath
  project_dir : FsPath
  files : List SteeringFile
  global_dir_state : DirState
  project_dir_state : DirState
deriving Repr, DecidableEq

/-- Model of `OmissionReason`. -/
inductive OmissionReason where
  | Disabled
  | Empty
  | NonUtf8
  | OverBudget
  | Io (msg : String)
deriving Repr, DecidableEq

/-- Model of `SteeringFileStatus`. -/
inductive SteeringFileStatus where
  | Included (bytes : Nat) (truncated : Bool)
  | Omitted (reason : OmissionReason)
deriving Repr, DecidableEq

/-- Model of `SteeringFileOutcome`. -/
structure SteeringFileOutcome where
  scope : SteeringScope
  path : FsPath
  display_path : String
  status : SteeringFileStatus
deriving Repr, DecidableEq

/-- Model of `SteeringLoadResult`.  The combined text is kept at the byte
level (`List Nat`), matching the bytes of the Rust `String`. -/
structure SteeringLoadResult where
  enabled : Bool
  max_bytes : Nat
  discovery : SteeringDiscovery
  files : List SteeringFileOutcome
  combined : Option (List Nat)
deriving Repr, DecidableEq

/-- The fields of `Config` that `steering.rs` reads. -/
structure Config where
  cwd : FsPath
  codex_home : FsPath
  steering_enabled : Bool
  steering_doc_max_bytes : Nat
deriving Repr, DecidableEq

/-! ### UTF-8 encoding (bytes of a Rust `String`) -/

/-- UTF-8 encoding of a single code point (as Rust encodes `char`). -/
def utf8EncodeCp (c : Nat) : List Nat :=
  if c < 0x80 then [c]
  else if c < 0x800 then
    [0xC0 + c / 0x40, 0x80 + c % 0x40]
  else if c < 0x10000 then
    [0xE0 + c / 0x1000, 0x80 + (c / 0x40) % 0x40, 0x80 + c % 0x40]
  else
    [0xF0 + c / 0x40000, 0x80 + (c / 0x1000) % 0x40, 0x80 + (c / 0x40) % 0x40,
      0x80 + c % 0x40]

/-- The UTF-8 bytes of a Lean `String`, i.e. the bytes Rust would store. -/
def strBytes (s : String) : List Nat :=
  s.data.flatMap (fun ch => utf8EncodeCp ch.toNat)

/-! ### UTF-8 decoding: model of `String::from_utf8` / `str::from_utf8`

`Utf8Result.error v el` corresponds to `Utf8Error` with
`valid_up_to() = v` and `error_len() = el` (`el = none` is the
"unexpected end of input" case: the input ends with an incomplete but
so-far-valid multi-byte sequence). -/

inductive Utf8Result where
  | ok (cps : List Nat)
  | error (validUpTo : Nat) (errorLen : Option Nat)
deriving Repr, DecidableEq

/-- Is `b` a UTF-8 continuation byte (`0x80..=0xBF`)? -/
def isCont (b : Nat) : Bool := 0x80 ≤ b && b ≤ 0xBF

/-- Valid range of the second byte of a three-byte sequence headed by `b`
(per Rust's `run_utf8_validation`). -/
def cont2ok3 (b b1 : Nat) : Bool :=
  if b = 0xE0 then 0xA0 ≤ b1 && b1 ≤ 0xBF
  else if b = 0xED then 0x80 ≤ b1 && b1 ≤ 0x9F
  else isCont b1

/-- Valid range of the second byte of a four-byte sequence headed by `b`. -/
def cont2ok4 (b b1 : Nat) : Bool :=
  if b = 0xF0 then 0x90 ≤ b1 && b1 ≤ 0xBF
  else if b = 0xF4 then 0x80 ≤ b1 && b1 ≤ 0x8F
  else isCont b1

/-- Code point of a two-byte sequence. -/
def cp2 (b b1 : Nat) : Nat := (b - 0xC0) * 0x40 + (b1 - 0x80)

/-- Code point of a three-byte sequence. -/
def cp3 (b b1 b2 : Nat) : Nat :=
  (b - 0xE0) * 0x1000 + (b1 - 0x80) * 0x40 + (b2 - 0x80)

/-- Code point of a four-byte sequence. -/
def cp4 (b b1 b2 b3 : Nat) : Nat :=
  (b - 0xF0) * 0x40000 + (b1 - 0x80) * 0x1000 + (b2 - 0x80) * 0x40 + (b3 - 0x80)

/-- Main decoding loop: `pos` is the number of bytes already consumed,
`acc` the code points decoded so far (reversed). -/
def utf8DecodeLoop : List Nat → Nat → List Nat → Utf8Result
  | [], _, acc => .ok acc.reverse
  | b :: rest, pos, acc =>
    if b < 0x80 then utf8DecodeLoop rest (pos + 1) (b :: acc)
    else if 0xC2 ≤ b && b ≤ 0xDF then
      match rest with
      | [] => .error pos none
      | b1 :: rest1 =>
        if isCont b1 then utf8DecodeLoop rest1 (pos + 2) (cp2 b b1 :: acc)
        else .error pos (some 1)
    else if 0xE0 ≤ b && b ≤ 0xEF then
      match rest with
      | [] => .error pos none
      | b1 :: rest1 =>
        if cont2ok3 b b1 then
          match rest1 with
          | [] => .error pos none
          | b2 :: rest2 =>
            if isCont b2 then utf8DecodeLoop rest2 (pos + 3) (cp3 b b1 b2 :: acc)
            else .error pos (some 2)
        else .error pos (some 1)
    else if 0xF0 ≤ b && b ≤ 0xF4 then
      match rest with
      | [] => .error pos none
      | b1 :: rest1 =>
        if cont2ok4 b b1 then
          match rest1 with
          | [] => .error pos none
          | b2 :: rest2 =>
            if isCont b2 then
              match rest2 with
              | [] => .error pos none
              | b3 :: rest3 =>
                if isCont b3 then utf8DecodeLoop rest3 (pos + 4) (cp4 b b1 b2 b3 :: acc)
                else .error pos (some 3)
            else .error pos (some 2)
        else .error pos (some 1)
    else .error pos (some 1)

/-- Model of `str::from_utf8` on a byte list. -/
def utf8Decode (bytes : List Nat) : Utf8Result := utf8DecodeLoop bytes 0 []

/-! ### Whitespace (Rust `char::is_whitespace`, Unicode `White_Space`) -/

/-- The Unicode `White_Space` code points, as used by Rust's
`char::is_whitespace` and hence by `str::trim`. -/
def isRustWhitespace (c : Nat) : Bool :=
  (0x09 ≤ c && c ≤ 0x0D) || c = 0x20 || c = 0x85 || c = 0xA0 || c = 0x1680 ||
  (0x2000 ≤ c && c ≤ 0x200A) || c = 0x2028 || c = 0x2029 || c = 0x202F ||
  c = 0x205F || c = 0x3000

/-- Model of `text.trim().is_empty()` on the UTF-8 bytes of a valid
string: true iff every decoded code point is whitespace. -/
def textBlank (bytes : List Nat) : Bool :=
  match utf8Decode bytes with
  | .ok cps => cps.all isRustWhitespace
  | .error _ _ => false

/-! ### Filesystem model for the loader

For each path, `FsFile` describes what the loader's system calls return:
`openError` is the failure of `File::open` (if any), `stat` is the size
reported by `metadata()` (`none` = stat failure, treated as `0`),
`content` the bytes of the file on disk, and `readError` a failure of
`read_to_end` on the opened file. -/

structure FsFile where
  openError : Option String
  stat : Option Nat
  content : List Nat
  readError : Option String
deriving Repr, DecidableEq

/-- Result of processing a single candidate within the loader loop. -/
inductive StepRes where
  | omitted (reason : OmissionReason)
  | included (text : List Nat) (truncated : Bool)
deriving Repr, DecidableEq

/-- Body of the `for file in &discovery.files` loop of `load_steering_docs`
for one file, given the remaining budget.  `.error` models the `?` on
`reader.read_to_end(&mut data).await?`. -/
def process_file (fd : FsFile) (remaining : Nat) : Except String StepRes :=
  if remaining = 0 then .ok (.omitted .OverBudget)
  else
    match fd.openError with
    | some e => .ok (.omitted (.Io e))
    | none =>
      let file_size := fd.stat.getD 0
      match fd.readError with
      | some e => .error e
      | none =>
        let data := fd.content.take remaining
        let truncated_by_budget : Bool := decide (file_size > remaining)
        let textOpt : Option (List Nat) :=
          match utf8Decode data with
          | .ok _ => some data
          | .error validUpTo errorLen =>
            if truncated_by_budget then
              if errorLen.isNone then
                match utf8Decode (data.take validUpTo) with
                | .ok _ => some (data.take validUpTo)
                | .error _ _ => none
              else none
            else none
        match textOpt with
        | none => .ok (.omitted .NonUtf8)
        | some text =>
          if textBlank text then .ok (.omitted .Empty)
          else .ok (.included text truncated_by_budget)

/-- Header line prepended to the text of an included file. -/
def headerFor (file : SteeringFile) (truncated : Bool) : String :=
  "[Steering: scope=" ++ file.scope.as_str ++ " file=" ++ file.display_path ++
    (if truncated then " truncated=true" else "") ++ "]"

/-- Build a `SteeringFileOutcome` for a candidate. -/
def mkOutcome (f : SteeringFile) (st : SteeringFileStatus) : SteeringFileOutcome :=
  { scope := f.scope, path := f.path, display_path := f.display_path, status := st }

/-- The loader loop of `load_steering_docs`: returns the outcome list and
the accepted `parts` (each `header ++ "\n" ++ text`, as bytes). -/
def load_loop (ffs : FsPath → FsFile) :
    List SteeringFile → Nat → Except String (List SteeringFileOutcome × List (List Nat))
  | [], _ => .ok ([], [])
  | file :: rest, remaining =>
    match process_file (ffs file.path) remaining with
    | .error e => .error e
    | .ok (.omitted reason) =>
      match load_loop ffs rest remaining with
      | .error e => .error e
      | .ok (os, ps) => .ok (mkOutcome file (.Omitted reason) :: os, ps)
    | .ok (.included text trunc) =>
      let part := strBytes (headerFor file trunc) ++ (10 : Nat) :: text
      match load_loop ffs rest (remaining - text.length) with
      | .error e => .error e
      | .ok (os, ps) =>
        .ok (mkOutcome file (.Included text.length trunc) :: os, part :: ps)

/-- Model of `format_omission_note`. -/
def format_omission_note (max_bytes : Nat) (omitted : List (SteeringScope × String)) :
    String :=
  String.intercalate "\n"
    ("[Steering: note]" ::
      ("Omitted " ++ toString omitted.length ++
        " file(s) due to steering.doc_max_bytes=" ++ toString max_bytes ++ ".") ::
      omitted.map (fun p => "- scope=" ++ p.1.as_str ++ " file=" ++ p.2 ++
        " reason=over-budget"))

/-- Outcome used by the disabled short-circuit. -/
def disabledOutcome (f : SteeringFile) : SteeringFileOutcome :=
  mkOutcome f (.Omitted .Disabled)

/-- Model of `load_steering_docs` after discovery: the short-circuit, the
loop, the joining of parts and the trailing omission note. -/
def load_from_discovery (config : Config) (discovery : SteeringDiscovery)
    (ffs : FsPath → FsFile) : Except String SteeringLoadResult :=
  let max_bytes := config.steering_doc_max_bytes
  if !config.steering_enabled || max_bytes == 0 then
    .ok { enabled := false, max_bytes, discovery,
          files := discovery.files.map disabledOutcome, combined := none }
  else
    match load_loop ffs discovery.files max_bytes with
    | .error e => .error e
    | .ok (outcomes, parts) =>
      let combined0 : Option (List Nat) :=
        if parts.isEmpty then none else some (List.intercalate [10, 10] parts)
      let omitted_over_budget : List (SteeringScope × String) :=
        outcomes.filterMap (fun o =>
          match o.status with
          | .Omitted .OverBudget => some (o.scope, o.display_path)
          | _ => none)
      let combined :=
        if omitted_over_budget.isEmpty then combined0
        else
          let note := strBytes (format_omission_note max_bytes omitted_over_budget)
          some
            (match combined0 with
            | some s => s ++ (10 : Nat) :: (10 : Nat) :: note
            | none => note)
      .ok { enabled := true, max_bytes, discovery, files := outcomes, combined }

/-! ### Filesystem model for discovery -/

/-- Result of `std::fs::metadata` on a `.git` marker path. -/
inductive GitProbe where
  | found
  | notFound
  | ioErr (msg : String)
deriving Repr, DecidableEq

/-- File type as reported by `symlink_metadata` (symlinks not followed). -/
inductive FType where
  | file
  | dir
  | symlink
  | other
deriving Repr, DecidableEq

deriving instance DecidableEq for Except

/-- A directory entry: its file name and its `symlink_metadata` result. -/
structure RawEntry where
  name : String
  meta : Except String FType
deriving Repr, DecidableEq

/-- Result of `std::fs::read_dir`: missing, failing, or a list of entries
(each of which can itself fail, as `read_dir`'s iterator yields
`io::Result<DirEntry>`). -/
inductive DirListing where
  | notFound
  | err (msg : String)
  | ok (entries : List (Except String RawEntry))
deriving Repr, DecidableEq

/-- The filesystem as seen by discovery: best-effort canonicalization,
`.git` probes, and directory listings. -/
structure DiscFs where
  norm : FsPath → Option FsPath
  gitStat : FsPath → GitProbe
  listDir : FsPath → DirListing

/-- Model of `PROJECT_STEERING_DIR = ".codex/steering"` as components. -/
def PROJECT_STEERING_DIR : List String := [".codex", "steering"]

/-- Model of `GLOBAL_STEERING_DIR = "steering"`. -/
def GLOBAL_STEERING_DIR : String := "steering"

/-- Model of Rust `Path::extension` on a plain file name: the part after
the last dot, unless there is no dot or the part before it is empty. -/
def extensionOf (name : String) : Option String :=
  let cs := name.data
  let revExt := cs.reverse.takeWhile (fun c => c ≠ '.')
  if revExt.length = cs.length then none
  else if cs.length = revExt.length + 1 then none
  else some (String.mk revExt.reverse)

/-- Display path for a candidate file name in a given scope. -/
def displayPathFor (scope : SteeringScope) (name : String) : String :=
  match scope with
  | .Global => "$CODEX_HOME/" ++ GLOBAL_STEERING_DIR ++ "/" ++ name
  | .Project => ".codex/steering/" ++ name

/-- Body of the `for entry in read_dir` loop of `list_md_files`: all the
`continue` paths yield `none`. -/
def entry_candidate (scope : SteeringScope) (dir : FsPath) :
    Except String RawEntry → Option SteeringFile
  | .error _ => none
  | .ok e =>
    match extensionOf e.name with
    | none => none
    | some ext =>
      if ext ≠ "md" then none
      else
        match e.meta with
        | .error _ => none
        | .ok ft =>
          if ft = FType.file then
            some { scope := scope, path := dir ++ [e.name],
                   display_path := displayPathFor scope e.name }
          else none

/-- Model of `list_md_files`.  The Rust function returns `io::Result` but
never `Err`: missing and unreadable directories become `DirState`s. -/
def list_md_files (fsys : DiscFs) (dir : FsPath) (scope : SteeringScope) :
    DirState × List SteeringFile :=
  match fsys.listDir dir with
  | .notFound => (DirState.Missing, [])
  | .err e => (DirState.Error e, [])
  | .ok entries => (DirState.Present, entries.filterMap (entry_candidate scope dir))

/-- Byte-wise lexicographic order on byte lists, i.e. Rust's `Ord` on
`String`/`str` (which compares the UTF-8 bytes). -/
def lexLe : List Nat → List Nat → Bool
  | [], _ => true
  | _ :: _, [] => false
  | x :: xs, y :: ys => x < y || (x = y && lexLe xs ys)

/-- The comparator of the two `sort_by` calls in `discover_steering_files`:
`a.display_path.cmp(&b.display_path)`. -/
def fileLe (a b : SteeringFile) : Bool :=
  lexLe (strBytes a.display_path) (strBytes b.display_path)

/-- The upward `.git` walk of `discover_repo_root`: while the cursor has a
parent, probe `cursor/.git`; on success return the cursor, on a
non-NotFound error fail, otherwise move to the parent.  If the root is
reached without a marker, return the original `cwd`.  The argument is the
cursor's component list *reversed* (leaf first), so that moving to the
parent — dropping the cursor's last component — is structural recursion;
the cursor itself is recovered with `List.reverse`. -/
def repo_walk (g : FsPath → GitProbe) (cwd : FsPath) : List String → Except String FsPath
  | [] => .ok cwd
  | c :: rs =>
    match g ((c :: rs).reverse ++ [".git"]) with
    | .found => .ok (c :: rs).reverse
    | .ioErr e => .error e
    | .notFound => repo_walk g cwd rs

/-- The best-effort canonicalization at the top of `discover_repo_root`:
`if let Ok(canon) = normalize_path(&dir) { dir = canon }`. -/
def normDir (fsys : DiscFs) (cwd : FsPath) : FsPath :=
  match fsys.norm cwd with
  | some canon => canon
  | none => cwd

/-- Model of `discover_repo_root`: best-effort canonicalization of `cwd`,
then the upward walk starting at the (canonicalized) directory. -/
def discover_repo_root (fsys : DiscFs) (cwd : FsPath) : Except String FsPath :=
  repo_walk fsys.gitStat cwd (normDir fsys cwd).reverse

/-- Model of `discover_steering_files`. -/
def discover_steering_files (fsys : DiscFs) (config : Config) :
    Except String SteeringDiscovery :=
  match discover_repo_root fsys config.cwd with
  | .error e => .error e
  | .ok repo_root =>
    let global_dir := config.codex_home ++ [GLOBAL_STEERING_DIR]
    let project_dir := repo_root ++ PROJECT_STEERING_DIR
    let gres := list_md_files fsys global_dir SteeringScope.Global
    let pres := list_md_files fsys project_dir SteeringScope.Project
    let global_files := gres.2.mergeSort fileLe
    let project_files := pres.2.mergeSort fileLe
    .ok { codex_home := config.codex_home, repo_root := repo_root,
          global_dir := global_dir, project_dir := project_dir,
          files := global_files ++ project_files,
          global_dir_state := gres.1, project_dir_state := pres.1 }

/-- Model of `load_steering_docs` end to end: discovery then loading. -/
def load_steering_docs (fsys : DiscFs) (config : Config) (ffs : FsPath → FsFile) :
    Except String SteeringLoadResult :=
  match discover_steering_files fsys config with
  | .error e => .error e
  | .ok discovery => load_from_discovery config discovery ffs

/-! ### Helper lemmas about the loader -/

/-- Identity of a candidate: scope, path and display path. -/
def fileKey (f : SteeringFile) : SteeringScope × FsPath × String :=
  (f.scope, f.path, f.display_path)

/-- Identity of an outcome: scope, path and display path. -/
def outcomeKey (o : SteeringFileOutcome) : SteeringScope × FsPath × String :=
  (o.scope, o.path, o.display_path)

/-- Bytes counted by an outcome (zero for omitted files). -/
def includedBytes (o : SteeringFileOutcome) : Nat :=
  match o.status with
  | .Included b _ => b
  | .Omitted _ => 0

theorem process_file_included (fd : FsFile) (remaining : Nat) (text : List Nat)
    (trunc : Bool) (h : process_file fd remaining = .ok (.included text trunc)) :
    remaining ≠ 0 ∧ fd.openError = none ∧ fd.readError = none ∧
      text.length ≤ remaining ∧ trunc = decide (fd.stat.getD 0 > remaining) := by
  simp only [process_file] at h
  split at h
  · simp at h
  · next hrem =>
    refine ⟨hrem, ?_⟩
    split at h
    · simp at h
    · next hopen =>
      refine ⟨hopen, ?_⟩
      split at h
      · simp at h
      · next hread =>
        refine ⟨hread, ?_⟩
        split at h
        · simp at h
        · next htext =>
          split at h
          · simp at h
          · simp only [Except.ok.injEq, StepRes.included.injEq] at h
            obtain ⟨rfl, rfl⟩ := h
            refine ⟨?_, rfl⟩
            split at htext
            · next heq =>
              simp only [Option.some.injEq] at htext
              subst htext
              simp [List.length_take]
            · next v el heq =>
              split at htext
              · split at htext
                · split at htext
                  · simp only [Option.some.injEq] at htext
                    subst htext
                    simp only [List.length_take]
                    omega
                  · simp at htext
                · simp at htext
              · simp at htext

theorem process_file_omitted (fd : FsFile) (remaining : Nat)
    (reason : OmissionReason)
    (h : process_file fd remaining = .ok (.omitted reason)) :
    reason ≠ .Disabled := by
  simp only [process_file] at h
  split at h
  · simp only [Except.ok.injEq, StepRes.omitted.injEq] at h
    subst h; simp
  · split at h
    · simp only [Except.ok.injEq, StepRes.omitted.injEq] at h
      subst h; simp
    · split at h
      · simp at h
      · split at h
        · simp only [Except.ok.injEq, StepRes.omitted.injEq] at h
          subst h; simp
        · split at h
          · simp only [Except.ok.injEq, StepRes.omitted.injEq] at h
            subst h; simp
          · simp at h

theorem load_loop_keys (ffs : FsPath → FsFile) (files : List SteeringFile) :
    ∀ remaining os ps, load_loop ffs files remaining = .ok (os, ps) →
      os.map outcomeKey = files.map fileKey := by
  induction files with
  | nil =>
    intro remaining os ps h
    simp only [load_loop, Except.ok.injEq, Prod.mk.injEq] at h
    obtain ⟨rfl, rfl⟩ := h
    simp
  | cons f rest ih =>
    intro remaining os ps h
    simp only [load_loop] at h
    cases hpf : process_file (ffs f.path) remaining with
    | error e => rw [hpf] at h; simp at h
    | ok step =>
      rw [hpf] at h
      cases step with
      | omitted r =>
        simp only [] at h
        cases hrec : load_loop ffs rest remaining with
        | error e => rw [hrec] at h; simp at h
        | ok pr =>
          obtain ⟨os', ps'⟩ := pr
          rw [hrec] at h
          simp only [Except.ok.injEq, Prod.mk.injEq] at h
          obtain ⟨rfl, rfl⟩ := h
          simp only [List.map_cons, ih _ _ _ hrec]
          rfl
      | included text trunc =>
        simp only [] at h
        cases hrec : load_loop ffs rest (remaining - text.length) with
        | error e => rw [hrec] at h; simp at h
        | ok pr =>
          obtain ⟨os', ps'⟩ := pr
          rw [hrec] at h
          simp only [Except.ok.injEq, Prod.mk.injEq] at h
          obtain ⟨rfl, rfl⟩ := h
          simp only [List.map_cons, ih _ _ _ hrec]
          rfl

theorem load_loop_budget (ffs : FsPath → FsFile) (files : List SteeringFile) :
    ∀ remaining os ps, load_loop ffs files remaining = .ok (os, ps) →
      (os.map includedBytes).sum ≤ remaining := by
  induction files with
  | nil =>
    intro remaining os ps h
    simp only [load_loop, Except.ok.injEq, Prod.mk.injEq] at h
    obtain ⟨rfl, rfl⟩ := h
    simp
  | cons f rest ih =>
    intro remaining os ps h
    simp only [load_loop] at h
    cases hpf : process_file (ffs f.path) remaining with
    | error e => rw [hpf] at h; simp at h
    | ok step =>
      rw [hpf] at h
      cases step with
      | omitted r =>
        simp only [] at h
        cases hrec : load_loop ffs rest remaining with
        | error e => rw [hrec] at h; simp at h
        | ok pr =>
          obtain ⟨os', ps'⟩ := pr
          rw [hrec] at h
          simp only [Except.ok.injEq, Prod.mk.injEq] at h
          obtain ⟨rfl, rfl⟩ := h
          simpa [includedBytes, mkOutcome] using ih _ _ _ hrec
      | included text trunc =>
        simp only [] at h
        cases hrec : load_loop ffs rest (remaining - text.length) with
        | error e => rw [hrec] at h; simp at h
        | ok pr =>
          obtain ⟨os', ps'⟩ := pr
          rw [hrec] at h
          simp only [Except.ok.injEq, Prod.mk.injEq] at h
          obtain ⟨rfl, rfl⟩ := h
          have hlen := (process_file_included _ _ _ _ hpf).2.2.2.1
          have hrest := ih _ _ _ hrec
          simp only [List.map_cons, List.sum_cons, includedBytes, mkOutcome]
          omega

/-! ### Claim C5: the disabled / zero-budget short-circuit -/

/-- C5: if `steering_enabled` is false or `steering_doc_max_bytes` is zero,
then every discovered candidate's outcome is `Omitted Disabled` and the
combined text is `none`; the result is the same for every file system, so
no file is processed.  The check happens once, before iterating. -/
theorem claim_C5_short_circuit (config : Config) (discovery : SteeringDiscovery)
    (h : config.steering_enabled = false ∨ config.steering_doc_max_bytes = 0)
    (ffs : FsPath → FsFile) :
    load_from_discovery config discovery ffs =
      .ok { enabled := false, max_bytes := config.steering_doc_max_bytes,
            discovery := discovery,
            files := discovery.files.map (fun f => mkOutcome f (.Omitted .Disabled)),
            combined := none } := by
  simp only [load_from_discovery]
  rcases h with h | h <;> simp [h, disabledOutcome]

/-- Witness for C5 at a concrete disabled configuration. -/
theorem claim_C5_short_circuit_witness :
    load_from_discovery
      { cwd := [], codex_home := ["home"], steering_enabled := false,
        steering_doc_max_bytes := 7 }
      { codex_home := ["home"], repo_root := [], global_dir := [], project_dir := [],
        files := [{ scope := .Project, path := ["a", "x.md"], display_path := "d" }],
        global_dir_state := .Missing, project_dir_state := .Present }
      (fun _ => { openError := none, stat := some 2, content := [104, 105],
                  readError := none }) =
      .ok { enabled := false, max_bytes := 7,
            discovery :=
              { codex_home := ["home"], repo_root := [], global_dir := [],
                project_dir := [],
                files := [{ scope := .Project, path := ["a", "x.md"],
                            display_path := "d" }],
                global_dir_state := .Missing, project_dir_state := .Present },
            files :=
              [{ scope := .Project, path := ["a", "x.md"], display_path := "d" }].map
                (fun f => mkOutcome f (.Omitted .Disabled)),
            combined := none } :=
  claim_C5_short_circuit _ _ (Or.inl rfl) _

/-! ### Claim C2: outcomes match candidates one-to-one, in order -/

/-- C2: whenever loading returns a result, the outcome list has exactly
the length and order of the discovered candidate list, each outcome
carrying the matching scope, path and display path; this holds both in
the short-circuit path and in the normal loop. -/
theorem claim_C2_outcomes_match_candidates (config : Config)
    (discovery : SteeringDiscovery) (ffs : FsPath → FsFile)
    (r : SteeringLoadResult)
    (h : load_from_discovery config discovery ffs = .ok r) :
    r.files.length = discovery.files.length ∧
      r.files.map outcomeKey = discovery.files.map fileKey := by
  have key : r.files.map outcomeKey = discovery.files.map fileKey := by
    simp only [load_from_discovery] at h
    split at h
    · simp only [Except.ok.injEq] at h
      subst h
      simp [outcomeKey, fileKey, disabledOutcome, mkOutcome]
    · split at h
      · simp at h
      · next outcomes parts hloop =>
        simp only [Except.ok.injEq] at h
        subst h
        simpa using load_loop_keys ffs discovery.files _ _ _ hloop
  have hlen := congrArg List.length key
  simp only [List.length_map] at hlen
  exact ⟨hlen, key⟩

set_option maxRecDepth 10000 in
/-- Witness for C2 at a concrete input with one included and one
over-budget file. -/
theorem claim_C2_outcomes_match_candidates_witness :
    ((load_from_discovery
        { cwd := [], codex_home := ["home"], steering_enabled := true,
          steering_doc_max_bytes := 2 }
        { codex_home := ["home"], repo_root := [], global_dir := [], project_dir := [],
          files := [{ scope := .Global, path := ["g", "a.md"], display_path := "ga" },
                    { scope := .Project, path := ["p", "b.md"], display_path := "pb" }],
          global_dir_state := .Present, project_dir_state := .Present }
        (fun _ => { openError := none, stat := some 2, content := [104, 105],
                    readError := none })).map
        (fun r => r.files.map outcomeKey)) =
      .ok [(SteeringScope.Global, (["g", "a.md"] : FsPath), "ga"),
           (SteeringScope.Project, (["p", "b.md"] : FsPath), "pb")] := by
  have h :
      load_from_discovery
        { cwd := [], codex_home := ["home"], steering_enabled := true,
          steering_doc_max_bytes := 2 }
        { codex_home := ["home"], repo_root := [], global_dir := [], project_dir := [],
          files := [{ scope := .Global, path := ["g", "a.md"], display_path := "ga" },
                    { scope := .Project, path := ["p", "b.md"], display_path := "pb" }],
          global_dir_state := .Present, project_dir_state := .Present }
        (fun _ => { openError := none, stat := some 2, content := [104, 105],
                    readError := none }) =
      .ok { enabled := true, max_bytes := 2,
            discovery :=
              { codex_home := ["home"], repo_root := [], global_dir := [],
                project_dir := [],
                files := [{ scope := .Global, path := ["g", "a.md"],
                            display_path := "ga" },
                          { scope := .Project, path := ["p", "b.md"],
                            display_path := "pb" }],
                global_dir_state := .Present, project_dir_state := .Present },
            files := [{ scope := .Global, path := ["g", "a.md"], display_path := "ga",
                        status := .Included 2 false },
                      { scope := .Project, path := ["p", "b.md"], display_path := "pb",
                        status := .Omitted .OverBudget }],
            combined :=
              some (strBytes "[Steering: scope=global file=ga]\nhi\n\n[Steering: note]\nOmitted 1 file(s) due to steering.doc_max_bytes=2.\n- scope=project file=pb reason=over-budget") } := by
    decide
  rw [h]
  have := claim_C2_outcomes_match_candidates _ _ _ _ h
  simp only [Except.map]
  rw [this.2]
  decide

/-! ### Claim C10: total included bytes never exceed the budget -/

/-- C10: when loading actually runs (enabled, non-zero budget), the sum of
the `bytes` fields over all `Included` outcomes is at most
`steering_doc_max_bytes`; headers, separators and the trailing note are
not counted against this budget. -/
theorem claim_C10_budget_bound (config : Config) (discovery : SteeringDiscovery)
    (ffs : FsPath → FsFile) (r : SteeringLoadResult)
    (henabled : config.steering_enabled = true)
    (hmax : config.steering_doc_max_bytes ≠ 0)
    (h : load_from_discovery config discovery ffs = .ok r) :
    (r.files.map includedBytes).sum ≤ config.steering_doc_max_bytes := by
  have hcond : ¬((!config.steering_enabled ||
      config.steering_doc_max_bytes == 0) = true) := by
    simp [henabled, hmax]
  simp only [load_from_discovery, if_neg hcond] at h
  split at h
  · simp at h
  · next outcomes parts hloop =>
    simp only [Except.ok.injEq] at h
    subst h
    simpa using load_loop_budget ffs discovery.files _ _ _ hloop

set_option maxRecDepth 10000 in
/-- Witness for C10: two two-byte files against a three-byte budget; the
included bytes sum to 3 = max. -/
theorem claim_C10_budget_bound_witness :
    ∃ r, load_from_discovery
        { cwd := [], codex_home := ["home"], steering_enabled := true,
          steering_doc_max_bytes := 3 }
        { codex_home := ["home"], repo_root := [], global_dir := [], project_dir := [],
          files := [{ scope := .Global, path := ["g", "a.md"], display_path := "a" },
                    { scope := .Global, path := ["g", "b.md"], display_path := "b" }],
          global_dir_state := .Present, project_dir_state := .Missing }
        (fun p => if p = ["g", "a.md"] then
            { openError := none, stat := some 2, content := [104, 105], readError := none }
          else
            { openError := none, stat := some 2, content := [111, 107], readError := none }) =
        .ok r ∧
      (r.files.map includedBytes).sum ≤ 3 := by
  have h :
      load_from_discovery
        { cwd := [], codex_home := ["home"], steering_enabled := true,
          steering_doc_max_bytes := 3 }
        { codex_home := ["home"], repo_root := [], global_dir := [], project_dir := [],
          files := [{ scope := .Global, path := ["g", "a.md"], display_path := "a" },
                    { scope := .Global, path := ["g", "b.md"], display_path := "b" }],
          global_dir_state := .Present, project_dir_state := .Missing }
        (fun p => if p = ["g", "a.md"] then
            { openError := none, stat := some 2, content := [104, 105], readError := none }
          else
            { openError := none, stat := some 2, content := [111, 107], readError := none }) =
      .ok { enabled := true, max_bytes := 3,
            discovery :=
              { codex_home := ["home"], repo_root := [], global_dir := [],
                project_dir := [],
                files := [{ scope := .Global, path := ["g", "a.md"],
                            display_path := "a" },
                          { scope := .Global, path := ["g", "b.md"],
                            display_path := "b" }],
                global_dir_state := .Present, project_dir_state := .Missing },
            files := [{ scope := .Global, path := ["g", "a.md"], display_path := "a",
                        status := .Included 2 false },
                      { scope := .Global, path := ["g", "b.md"], display_path := "b",
                        status := .Included 1 true }],
            combined :=
              some (strBytes "[Steering: scope=global file=a]\nhi\n\n[Steering: scope=global file=b truncated=true]\no") } := by
    decide
  exact ⟨_, h, claim_C10_budget_bound _ _ _ _ rfl (by decide) h⟩

/-! ### Claim C8: how the truncated flag is computed -/

/-- C8: the `truncated` flag of an `Included` outcome equals
`true_file_size > remaining` where `true_file_size` is the stat size with
failures treated as `0` — it does not depend on how many bytes were
actually read; in particular a stat failure means the flag is `false`. -/
theorem claim_C8_truncated_flag (fd : FsFile) (remaining : Nat) (text : List Nat)
    (trunc : Bool)
    (h : process_file fd remaining = .ok (.included text trunc)) :
    trunc = decide (fd.stat.getD 0 > remaining) ∧
      (fd.stat = none → trunc = false) := by
  have h5 := (process_file_included _ _ _ _ h).2.2.2.2
  refine ⟨h5, fun hs => ?_⟩
  subst h5
  simp [hs]

/-- Witness for C8: a stat failure on a five-byte file read against a
two-byte budget still yields `truncated = false`. -/
theorem claim_C8_truncated_flag_witness :
    process_file
        { openError := none, stat := none, content := [104, 105, 104, 105, 104],
          readError := none } 2 =
      .ok (.included [104, 105] false) ∧
      (false : Bool) = decide ((Option.none : Option Nat).getD 0 > 2) := by
  refine ⟨by decide, ?_⟩
  have h := claim_C8_truncated_flag
    { openError := none, stat := none, content := [104, 105, 104, 105, 104],
      readError := none } 2 [104, 105] false (by decide)
  exact h.1

/-! ### Helper lemmas about the UTF-8 decoder -/

theorem utf8DecodeLoop_ascii : ∀ (l : List Nat) (pos : Nat) (acc : List Nat),
    (∀ b ∈ l, b < 0x80) →
    utf8DecodeLoop l pos acc = .ok (acc.reverse ++ l) := by
  intro l
  induction l with
  | nil => intro pos acc h; simp [utf8DecodeLoop]
  | cons b rest ih =>
    intro pos acc h
    have hb : b < 0x80 := h b (by simp)
    rw [utf8DecodeLoop.eq_def]
    simp only [if_pos hb]
    rw [ih (pos + 1) (b :: acc) (fun x hx => h x (by simp [hx]))]
    simp

/-- On a decoding error with `valid_up_to = v`, the first `v` bytes are a
valid prefix: decoding them succeeds.  (This is the guarantee Rust gives
for `Utf8Error::valid_up_to`, proved here for the model; it shows the
salvage step of the loader never takes its inner error branch.) -/
theorem utf8DecodeLoop_error_take :
    ∀ (l : List Nat) (pos : Nat) (acc : List Nat) (v : Nat) (el : Option Nat),
    utf8DecodeLoop l pos acc = .error v el →
    pos ≤ v ∧ v - pos ≤ l.length ∧
      ∃ cps, utf8DecodeLoop (l.take (v - pos)) pos acc = .ok cps := by
  intro l pos acc
  induction l, pos, acc using utf8DecodeLoop.induct with
  | case1 pos acc =>
    intro v el h
    simp [utf8DecodeLoop] at h
  | case2 b rest pos acc hb ih =>
    intro v el h
    rw [utf8DecodeLoop.eq_def] at h
    simp only [if_pos hb] at h
    obtain ⟨h1, h2, cps, h3⟩ := ih v el h
    refine ⟨by omega, by simp only [List.length_cons]; omega, cps, ?_⟩
    have hv : v - pos = (v - (pos + 1)) + 1 := by omega
    rw [hv, List.take_succ_cons]
    rw [utf8DecodeLoop.eq_def]
    simp only [if_pos hb]
    exact h3
  | case3 b pos acc hb h2 =>
    intro v el h
    rw [utf8DecodeLoop.eq_def] at h
    simp only [if_neg hb, if_pos h2] at h
    injection h with h1 h1'
    subst h1
    exact ⟨le_rfl, by simp, acc.reverse, by simp [Nat.sub_self, utf8DecodeLoop]⟩
  | case4 b pos acc hb h2 b1 rest1 hc ih =>
    intro v el h
    rw [utf8DecodeLoop.eq_def] at h
    simp only [if_neg hb, if_pos h2, if_pos hc] at h
    obtain ⟨h1, hlen, cps, h3⟩ := ih v el h
    refine ⟨by omega, by simp only [List.length_cons]; omega, cps, ?_⟩
    have hv : v - pos = (v - (pos + 2)) + 1 + 1 := by omega
    rw [hv, List.take_succ_cons, List.take_succ_cons]
    rw [utf8DecodeLoop.eq_def]
    simp only [if_neg hb, if_pos h2, if_pos hc]
    exact h3
  | case5 b pos acc hb h2 b1 rest1 hc =>
    intro v el h
    rw [utf8DecodeLoop.eq_def] at h
    simp only [if_neg hb, if_pos h2, if_neg hc] at h
    injection h with h1 h1'
    subst h1
    exact ⟨le_rfl, by simp, acc.reverse, by simp [Nat.sub_self, utf8DecodeLoop]⟩
  | case6 b pos acc hb h2 h3 =>
    intro v el h
    rw [utf8DecodeLoop.eq_def] at h
    simp only [if_neg hb, if_neg h2, if_pos h3] at h
    injection h with h1 h1'
    subst h1
    exact ⟨le_rfl, by simp, acc.reverse, by simp [Nat.sub_self, utf8DecodeLoop]⟩
  | case7 b pos acc hb h2 h3 b1 hc =>
    intro v el h
    rw [utf8DecodeLoop.eq_def] at h
    simp only [if_neg hb, if_neg h2, if_pos h3, if_pos hc] at h
    injection h with h1 h1'
    subst h1
    exact ⟨le_rfl, by simp, acc.reverse, by simp [Nat.sub_self, utf8DecodeLoop]⟩
  | case8 b pos acc hb h2 h3 b1 hc b2 rest1 hc2 ih =>
    intro v el h
    rw [utf8DecodeLoop.eq_def] at h
    simp only [if_neg hb, if_neg h2, if_pos h3, if_pos hc,
      if_pos hc2] at h
    obtain ⟨h1, hlen, cps, h3'⟩ := ih v el h
    refine ⟨by omega, by simp only [List.length_cons]; omega, cps, ?_⟩
    have hv : v - pos = (v - (pos + 3)) + 1 + 1 + 1 := by omega
    rw [hv, List.take_succ_cons, List.take_succ_cons, List.take_succ_cons]
    rw [utf8DecodeLoop.eq_def]
    simp only [if_neg hb, if_neg h2, if_pos h3, if_pos hc,
      if_pos hc2]
    exact h3'
  | case9 b pos acc hb h2 h3 b1 hc b2 rest1 hc2 =>
    intro v el h
    rw [utf8DecodeLoop.eq_def] at h
    simp only [if_neg hb, if_neg h2, if_pos h3, if_pos hc,
      if_neg hc2] at h
    injection h with h1 h1'
    subst h1
    exact ⟨le_rfl, by simp, acc.reverse, by simp [Nat.sub_self, utf8DecodeLoop]⟩
  | case10 b pos acc hb h2 h3 b1 rest1 hc =>
    intro v el h
    rw [utf8DecodeLoop.eq_def] at h
    simp only [if_neg hb, if_neg h2, if_pos h3, if_neg hc] at h
    injection h with h1 h1'
    subst h1
    exact ⟨le_rfl, by simp, acc.reverse, by simp [Nat.sub_self, utf8DecodeLoop]⟩
  | case11 b pos acc hb h2 h3 h4 =>
    intro v el h
    rw [utf8DecodeLoop.eq_def] at h
    simp only [if_neg hb, if_neg h2, if_neg h3, if_pos h4] at h
    injection h with h1 h1'
    subst h1
    exact ⟨le_rfl, by simp, acc.reverse, by simp [Nat.sub_self, utf8DecodeLoop]⟩
  | case12 b pos acc hb h2 h3 h4 b1 hc =>
    intro v el h
    rw [utf8DecodeLoop.eq_def] at h
    simp only [if_neg hb, if_neg h2, if_neg h3, if_pos h4,
      if_pos hc] at h
    injection h with h1 h1'
    subst h1
    exact ⟨le_rfl, by simp, acc.reverse, by simp [Nat.sub_self, utf8DecodeLoop]⟩
  | case13 b pos acc hb h2 h3 h4 b1 hc b2 hc2 =>
    intro v el h
    rw [utf8DecodeLoop.eq_def] at h
    simp only [if_neg hb, if_neg h2, if_neg h3, if_pos h4,
      if_pos hc, if_pos hc2] at h
    injection h with h1 h1'
    subst h1
    exact ⟨le_rfl, by simp, acc.reverse, by simp [Nat.sub_self, utf8DecodeLoop]⟩
  | case14 b pos acc hb h2 h3 h4 b1 hc b2 hc2 b3 rest1 hc3 ih =>
    intro v el h
    rw [utf8DecodeLoop.eq_def] at h
    simp only [if_neg hb, if_neg h2, if_neg h3, if_pos h4,
      if_pos hc, if_pos hc2, if_pos hc3] at h
    obtain ⟨h1, hlen, cps, h3'⟩ := ih v el h
    refine ⟨by omega, by simp only [List.length_cons]; omega, cps, ?_⟩
    have hv : v - pos = (v - (pos + 4)) + 1 + 1 + 1 + 1 := by omega
    rw [hv, List.take_succ_cons, List.take_succ_cons, List.take_succ_cons,
      List.take_succ_cons]
    rw [utf8DecodeLoop.eq_def]
    simp only [if_neg hb, if_neg h2, if_neg h3, if_pos h4,
      if_pos hc, if_pos hc2, if_pos hc3]
    exact h3'
  | case15 b pos acc hb h2 h3 h4 b1 hc b2 hc2 b3 rest1 hc3 =>
    intro v el h
    rw [utf8DecodeLoop.eq_def] at h
    simp only [if_neg hb, if_neg h2, if_neg h3, if_pos h4,
      if_pos hc, if_pos hc2, if_neg hc3] at h
    injection h with h1 h1'
    subst h1
    exact ⟨le_rfl, by simp, acc.reverse, by simp [Nat.sub_self, utf8DecodeLoop]⟩
  | case16 b pos acc hb h2 h3 h4 b1 hc b2 rest1 hc2 =>
    intro v el h
    rw [utf8DecodeLoop.eq_def] at h
    simp only [if_neg hb, if_neg h2, if_neg h3, if_pos h4,
      if_pos hc, if_neg hc2] at h
    injection h with h1 h1'
    subst h1
    exact ⟨le_rfl, by simp, acc.reverse, by simp [Nat.sub_self, utf8DecodeLoop]⟩
  | case17 b pos acc hb h2 h3 h4 b1 rest1 hc =>
    intro v el h
    rw [utf8DecodeLoop.eq_def] at h
    simp only [if_neg hb, if_neg h2, if_neg h3, if_pos h4,
      if_neg hc] at h
    injection h with h1 h1'
    subst h1
    exact ⟨le_rfl, by simp, acc.reverse, by simp [Nat.sub_self, utf8DecodeLoop]⟩
  | case18 b rest pos acc hb h2 h3 h4 =>
    intro v el h
    rw [utf8DecodeLoop.eq_def] at h
    simp only [if_neg hb, if_neg h2, if_neg h3, if_neg h4] at h
    injection h with h1 h1'
    subst h1
    exact ⟨le_rfl, by simp, acc.reverse, by simp [Nat.sub_self, utf8DecodeLoop]⟩

/-- The salvage guarantee at the top level: if decoding fails with
`valid_up_to = v`, then `v` is within bounds and the `v`-byte prefix
decodes successfully. -/
theorem utf8Decode_error_take (l : List Nat) (v : Nat) (el : Option Nat)
    (h : utf8Decode l = .error v el) :
    v ≤ l.length ∧ ∃ cps, utf8Decode (l.take v) = .ok cps := by
  obtain ⟨h1, h2, cps, h3⟩ := utf8DecodeLoop_error_take l 0 [] v el h
  refine ⟨by omega, cps, ?_⟩
  simpa [utf8Decode] using h3

/-! ### Claim C6: UTF-8 handling of a read file -/

/-- C6 counterexample to the claim as stated: a file whose bytes are one
space followed by the first two bytes of a three-byte character, read
budget-truncated (true size 4 > remaining 3).  The decode error is exactly
an incomplete trailing sequence (`valid_up_to = 1`, `error_len = none`),
so by the claim the salvaged one-byte prefix should be *included* with
`truncated = true`; the code instead omits the file as `Empty`, because
the salvaged prefix is whitespace-only. -/
theorem claim_C6_counterexample :
    process_file
        { openError := none, stat := some 4, content := [0x20, 0xE2, 0x82, 0xAC],
          readError := none } 3 =
      .ok (.omitted .Empty) ∧
      utf8Decode ([0x20, 0xE2, 0x82, 0xAC].take 3) = .error 1 none ∧
      ((4 : Nat) > 3) := by
  decide

/-- C6 (amended): when the bytes read are invalid UTF-8, the outcome is
`Omitted NonUtf8` — except when the read was budget-truncated *and* the
decoding error is exactly an incomplete trailing sequence
(`error_len = none`), in which case the longest valid prefix
(`valid_up_to` bytes) is salvaged and used as the text: the file is then
included with `truncated = true` unless the prefix is empty or
whitespace-only, in which case it is `Omitted Empty`.  Without budget
truncation no salvage is attempted. -/
theorem claim_C6_utf8_handling (fd : FsFile) (remaining : Nat) (v : Nat)
    (el : Option Nat) (hrem : remaining ≠ 0) (hopen : fd.openError = none)
    (hread : fd.readError = none)
    (hdec : utf8Decode (fd.content.take remaining) = .error v el) :
    process_file fd remaining =
      if fd.stat.getD 0 > remaining ∧ el = none then
        (if textBlank ((fd.content.take remaining).take v) then
          .ok (.omitted .Empty)
        else
          .ok (.included ((fd.content.take remaining).take v) true))
      else .ok (.omitted .NonUtf8) := by
  simp only [process_file, if_neg hrem, hopen, hread, hdec]
  by_cases htr : fd.stat.getD 0 > remaining
  · cases el with
    | none =>
      obtain ⟨hb, cps, hok⟩ := utf8Decode_error_take _ _ _ hdec
      simp [htr, hok]
    | some n => simp [htr]
  · simp [htr]

/-- Witness for the amended C6: a budget-truncated file " A" followed by a
cut three-byte character; the salvaged prefix "A…" is non-blank, so it is
included with `truncated = true`. -/
theorem claim_C6_utf8_handling_witness :
    process_file
        { openError := none, stat := some 5, content := [65, 0xE2, 0x82, 0xAC, 66],
          readError := none } 3 =
      .ok (.included [65] true) := by
  have h := claim_C6_utf8_handling
    { openError := none, stat := some 5, content := [65, 0xE2, 0x82, 0xAC, 66],
      readError := none } 3 1 none (by decide) rfl rfl (by decide)
  rw [h]
  decide

/-! ### Claim C1: budget accounting -/

/-- Files for which the budget rule alone decides the outcome: readable,
accurately stat-ed, pure-ASCII, and starting with a non-whitespace byte
(so no prefix is ever blank). -/
def asciiNonBlankB (fd : FsFile) : Bool :=
  fd.openError.isNone && fd.readError.isNone &&
    (fd.stat == some fd.content.length) &&
    fd.content.all (fun b => b < 0x80) &&
    (match fd.content with
      | [] => false
      | h :: _ => !isRustWhitespace h)

/-- The budget accounting rule as the spec states it: with remaining
budget `B`, a file of length `L` is included in full if `L ≤ B`, included
partially (to the `B` remaining bytes, `truncated = true`) if it
straddles the boundary, and `Omitted OverBudget` if the budget is already
exhausted. -/
def spec_budget_statuses (B : Nat) : List Nat → List SteeringFileStatus
  | [] => []
  | L :: rest =>
    if L ≤ B then .Included L false :: spec_budget_statuses (B - L) rest
    else if B ≠ 0 then .Included B true :: spec_budget_statuses 0 rest
    else .Omitted .OverBudget :: spec_budget_statuses 0 rest

theorem process_file_zero (fd : FsFile) :
    process_file fd 0 = .ok (.omitted .OverBudget) := by
  simp [process_file]

theorem process_file_ascii (fd : FsFile) (B : Nat) (hB : B ≠ 0)
    (h : asciiNonBlankB fd = true) :
    process_file fd B =
      .ok (.included (fd.content.take B) (decide (fd.content.length > B))) := by
  simp only [asciiNonBlankB, Bool.and_eq_true] at h
  obtain ⟨⟨⟨⟨ho, hr⟩, hs⟩, hall⟩, hhd⟩ := h
  rw [Option.isNone_iff_eq_none] at ho hr
  rw [beq_iff_eq] at hs
  have hall' : ∀ b ∈ fd.content, b < 0x80 := by
    intro b hb
    simpa using List.all_eq_true.mp hall b hb
  have hdec : utf8Decode (fd.content.take B) = .ok (fd.content.take B) := by
    simpa [utf8Decode] using utf8DecodeLoop_ascii (fd.content.take B) 0 []
      (fun b hb => hall' b (List.mem_of_mem_take hb))
  have hblank : textBlank (fd.content.take B) = false := by
    cases hc : fd.content with
    | nil => rw [hc] at hhd; simp at hhd
    | cons hd tl =>
      rw [hc] at hhd
      simp only [Bool.not_eq_true'] at hhd
      cases B with
      | zero => exact absurd rfl hB
      | succ B' =>
        have hdec' : utf8Decode (hd :: List.take B' tl) = .ok (hd :: List.take B' tl) := by
          rw [hc, List.take_succ_cons] at hdec
          exact hdec
        simp [textBlank, hc, List.take_succ_cons, hdec', hhd]
  simp [process_file, if_neg hB, ho, hr, hs, hdec, hblank]

/-- The loader loop refines the spec's budget rule on files that pass all
the other filters. -/
theorem load_loop_spec_budget (ffs : FsPath → FsFile) :
    ∀ (files : List SteeringFile) (B : Nat),
      (∀ f ∈ files, asciiNonBlankB (ffs f.path) = true) →
      ∃ os ps, load_loop ffs files B = .ok (os, ps) ∧
        os.map (fun o => o.status) =
          spec_budget_statuses B (files.map (fun f => (ffs f.path).content.length)) := by
  intro files
  induction files with
  | nil => intro B h; exact ⟨[], [], rfl, rfl⟩
  | cons f rest ih =>
    intro B h
    have hf := h f (by simp)
    have hrest : ∀ g ∈ rest, asciiNonBlankB (ffs g.path) = true :=
      fun g hg => h g (by simp [hg])
    have hLpos : (ffs f.path).content.length ≠ 0 := by
      have hf' := hf
      simp only [asciiNonBlankB, Bool.and_eq_true] at hf'
      obtain ⟨_, hhd⟩ := hf'
      cases hc : (ffs f.path).content with
      | nil => rw [hc] at hhd; simp at hhd
      | cons a b => simp [hc]
    by_cases hB : B = 0
    · subst hB
      obtain ⟨os, ps, hloop, hmap⟩ := ih 0 hrest
      refine ⟨mkOutcome f (.Omitted .OverBudget) :: os, ps, ?_, ?_⟩
      · simp only [load_loop, process_file_zero, hloop]
      · simp only [List.map_cons, spec_budget_statuses, hmap, mkOutcome]
        rw [if_neg (by omega), if_neg (by simp)]
    · by_cases hcmp : (ffs f.path).content.length ≤ B
      · obtain ⟨os, ps, hloop, hmap⟩ := ih (B - (ffs f.path).content.length) hrest
        have htake : (ffs f.path).content.take B = (ffs f.path).content :=
          List.take_of_length_le hcmp
        have htr : decide ((ffs f.path).content.length > B) = false := by
          simp; omega
        refine ⟨mkOutcome f (.Included (ffs f.path).content.length false) :: os,
          (strBytes (headerFor f false) ++ (10 : Nat) :: (ffs f.path).content) :: ps,
          ?_, ?_⟩
        · simp only [load_loop, process_file_ascii _ _ hB hf, htake, htr]
          rw [hloop]
        · simp only [List.map_cons, spec_budget_statuses, mkOutcome, hmap]
          rw [if_pos hcmp]
      · have hgt : B < (ffs f.path).content.length := by omega
        obtain ⟨os, ps, hloop, hmap⟩ := ih 0 hrest
        have hlen : ((ffs f.path).content.take B).length = B := by
          simp only [List.length_take]
          omega
        have htr : decide ((ffs f.path).content.length > B) = true := by
          simp; omega
        refine ⟨mkOutcome f (.Included B true) :: os,
          (strBytes (headerFor f true) ++ (10 : Nat) :: (ffs f.path).content.take B) :: ps,
          ?_, ?_⟩
        · simp only [load_loop, process_file_ascii _ _ hB hf, htr, hlen]
          rw [Nat.sub_self, hloop]
        · simp only [List.map_cons, spec_budget_statuses, mkOutcome, hmap]
          rw [if_neg (by omega), if_pos hB]

/-- The discovery filesystem of the spec's worked scenario: a repository
at `/repo` (with a `.git` marker), no global steering directory, and a
project steering directory listing `02.md`, `01.md`, `03.md` in
non-sorted order. -/
def scenarioDiscFs : DiscFs :=
  { norm := fun p => some p,
    gitStat := fun p => if p = ["repo", ".git"] then .found else .notFound,
    listDir := fun p =>
      if p = ["repo", ".codex", "steering"] then
        .ok [.ok { name := "02.md", meta := .ok .file },
             .ok { name := "01.md", meta := .ok .file },
             .ok { name := "03.md", meta := .ok .file }]
      else .notFound }

/-- The configuration of the spec's worked scenario: budget 15. -/
def scenarioConfig : Config :=
  { cwd := ["repo"], codex_home := ["home"], steering_enabled := true,
    steering_doc_max_bytes := 15 }

/-- The file contents of the spec's worked scenario: three 10-byte ASCII
files of `A`s, `B`s and `C`s. -/
def scenarioFileFs : FsPath → FsFile :=
  fun p =>
    if p = ["repo", ".codex", "steering", "01.md"] then
      { openError := none, stat := some 10, content := List.replicate 10 65,
        readError := none }
    else if p = ["repo", ".codex", "steering", "02.md"] then
      { openError := none, stat := some 10, content := List.replicate 10 66,
        readError := none }
    else if p = ["repo", ".codex", "steering", "03.md"] then
      { openError := none, stat := some 10, content := List.replicate 10 67,
        readError := none }
    else { openError := some "missing", stat := none, content := [], readError := none }

set_option maxRecDepth 100000 in
unseal List.merge List.mergeSort in
/-- C1: budget accounting over the ordered candidate sequence.  First
conjunct: the loop's statuses refine the spec's budget rule (full
inclusion when the length fits the remaining budget, partial inclusion
with `truncated = true` at the boundary, `Omitted OverBudget` once the
budget is exhausted) for files passing the other filters.  Second
conjunct, the spec's worked scenario end to end: budget 15 and three
10-byte ASCII files give `Included 10 false`, `Included 5 true`,
`Omitted OverBudget`, and the combined text carries the trailing omission
note naming file `03.md`. -/
theorem claim_C1_budget_accounting :
    (∀ (ffs : FsPath → FsFile) (files : List SteeringFile) (B : Nat),
        (∀ f ∈ files, asciiNonBlankB (ffs f.path) = true) →
        ∃ os ps, load_loop ffs files B = .ok (os, ps) ∧
          os.map (fun o => o.status) =
            spec_budget_statuses B
              (files.map (fun f => (ffs f.path).content.length))) ∧
      load_steering_docs scenarioDiscFs scenarioConfig scenarioFileFs =
        .ok { enabled := true, max_bytes := 15,
              discovery :=
                { codex_home := ["home"], repo_root := ["repo"],
                  global_dir := ["home", "steering"],
                  project_dir := ["repo", ".codex", "steering"],
                  files :=
                    [{ scope := .Project,
                       path := ["repo", ".codex", "steering", "01.md"],
                       display_path := ".codex/steering/01.md" },
                     { scope := .Project,
                       path := ["repo", ".codex", "steering", "02.md"],
                       display_path := ".codex/steering/02.md" },
                     { scope := .Project,
                       path := ["repo", ".codex", "steering", "03.md"],
                       display_path := ".codex/steering/03.md" }],
                  global_dir_state := .Missing, project_dir_state := .Present },
              files :=
                [{ scope := .Project,
                   path := ["repo", ".codex", "steering", "01.md"],
                   display_path := ".codex/steering/01.md",
                   status := .Included 10 false },
                 { scope := .Project,
                   path := ["repo", ".codex", "steering", "02.md"],
                   display_path := ".codex/steering/02.md",
                   status := .Included 5 true },
                 { scope := .Project,
                   path := ["repo", ".codex", "steering", "03.md"],
                   display_path := ".codex/steering/03.md",
                   status := .Omitted .OverBudget }],
              combined :=
                some (strBytes "[Steering: scope=project file=.codex/steering/01.md]\nAAAAAAAAAA\n\n[Steering: scope=project file=.codex/steering/02.md truncated=true]\nBBBBB\n\n[Steering: note]\nOmitted 1 file(s) due to steering.doc_max_bytes=15.\n- scope=project file=.codex/steering/03.md reason=over-budget") } :=
  ⟨fun ffs files B h => load_loop_spec_budget ffs files B h, by decide⟩

/-- A two-byte readable ASCII file, used by the C1 witness. -/
def witnessC1File : FsFile :=
  { openError := none, stat := some 2, content := [104, 105], readError := none }

/-- The single candidate of the C1 witness. -/
def witnessC1Candidates : List SteeringFile :=
  [{ scope := .Global, path := ["g", "x.md"], display_path := "x" }]

/-- Witness for C1's universally quantified conjunct: one two-byte file
against a one-byte budget is included partially. -/
theorem claim_C1_budget_accounting_witness :
    ∃ os ps, load_loop (fun _ => witnessC1File) witnessC1Candidates 1 =
        .ok (os, ps) ∧
      os.map (fun o => o.status) =
        spec_budget_statuses 1
          (witnessC1Candidates.map
            (fun f => ((fun _ => witnessC1File) f.path).content.length)) :=
  claim_C1_budget_accounting.1 _ _ 1 (by decide)

/-! ### Claim C4: repository-root resolution -/

/-- Exhaustive case analysis of the upward walk, with the cursor at step
`i` being `(rs.drop i).reverse`: either no probed ancestor has a `.git`
marker and the original `cwd` is returned, or the first (deepest) marker
found is returned, or the first probe that fails with a non-NotFound
error aborts the walk. -/
theorem repo_walk_cases (g : FsPath → GitProbe) (cwd : FsPath) :
    ∀ rs : List String,
      (repo_walk g cwd rs = .ok cwd ∧
        ∀ i < rs.length, g ((rs.drop i).reverse ++ [".git"]) = .notFound) ∨
      (∃ i, i < rs.length ∧ repo_walk g cwd rs = .ok ((rs.drop i).reverse) ∧
        g ((rs.drop i).reverse ++ [".git"]) = .found ∧
        ∀ j < i, g ((rs.drop j).reverse ++ [".git"]) = .notFound) ∨
      (∃ i, i < rs.length ∧ ∃ e, repo_walk g cwd rs = .error e ∧
        g ((rs.drop i).reverse ++ [".git"]) = .ioErr e ∧
        ∀ j < i, g ((rs.drop j).reverse ++ [".git"]) = .notFound) := by
  intro rs
  induction rs with
  | nil => exact Or.inl ⟨rfl, by simp⟩
  | cons c rs ih =>
    cases hg : g ((c :: rs).reverse ++ [".git"]) with
    | found =>
      have hg' : g (rs.reverse ++ [c, ".git"]) = .found := by simpa using hg
      refine Or.inr (Or.inl ⟨0, by simp, ?_, by simpa using hg, by omega⟩)
      simp [repo_walk, hg']
    | ioErr e =>
      have hg' : g (rs.reverse ++ [c, ".git"]) = .ioErr e := by simpa using hg
      refine Or.inr (Or.inr ⟨0, by simp, e, ?_, by simpa using hg, by omega⟩)
      simp [repo_walk, hg']
    | notFound =>
      have hg' : g (rs.reverse ++ [c, ".git"]) = .notFound := by simpa using hg
      have hw : repo_walk g cwd (c :: rs) = repo_walk g cwd rs := by
        simp [repo_walk, hg']
      rcases ih with ⟨h1, h2⟩ | ⟨i, hi, h1, h2, h3⟩ | ⟨i, hi, e, h1, h2, h3⟩
      · refine Or.inl ⟨hw ▸ h1, ?_⟩
        intro i hilen
        cases i with
        | zero => simpa using hg
        | succ i' =>
          rw [List.drop_succ_cons]
          exact h2 i' (by simpa using hilen)
      · refine Or.inr (Or.inl ⟨i + 1, by simpa using hi, ?_, ?_, ?_⟩)
        · rw [hw, List.drop_succ_cons]; exact h1
        · rw [List.drop_succ_cons]; exact h2
        · intro j hj
          cases j with
          | zero => simpa using hg
          | succ j' =>
            rw [List.drop_succ_cons]
            exact h3 j' (by omega)
      · refine Or.inr (Or.inr ⟨i + 1, by simpa using hi, e, ?_, ?_, ?_⟩)
        · rw [hw]; exact h1
        · rw [List.drop_succ_cons]; exact h2
        · intro j hj
          cases j with
          | zero => simpa using hg
          | succ j' =>
            rw [List.drop_succ_cons]
            exact h3 j' (by omega)

/-- Reversed-suffix cursors are prefixes of the original path. -/
theorem drop_reverse_take (d : List String) (i : Nat) :
    (d.reverse.drop i).reverse = d.take (d.length - i) := by
  rw [List.reverse_drop]
  simp

/-- C4: `discover_repo_root` walks upward from the (normalized) working
directory one parent at a time; a success is either the nearest strict
ancestor-or-self prefix containing a `.git` entry (every deeper probed
prefix having none) or — when every probed prefix lacks the marker — the
original `cwd` unchanged, so "not found" is never an error; the only
error is a non-NotFound I/O failure probing some prefix, every deeper
prefix having produced NotFound. -/
theorem claim_C4_repo_root (fsys : DiscFs) (cwd : FsPath) :
    (∀ e, discover_repo_root fsys cwd = .error e →
      ∃ k, 0 < k ∧ k ≤ (normDir fsys cwd).length ∧
        fsys.gitStat ((normDir fsys cwd).take k ++ [".git"]) = .ioErr e ∧
        ∀ j, k < j → j ≤ (normDir fsys cwd).length →
          fsys.gitStat ((normDir fsys cwd).take j ++ [".git"]) = .notFound) ∧
    (∀ r, discover_repo_root fsys cwd = .ok r →
      (∃ k, 0 < k ∧ k ≤ (normDir fsys cwd).length ∧ r = (normDir fsys cwd).take k ∧
        fsys.gitStat ((normDir fsys cwd).take k ++ [".git"]) = .found ∧
        ∀ j, k < j → j ≤ (normDir fsys cwd).length →
          fsys.gitStat ((normDir fsys cwd).take j ++ [".git"]) = .notFound) ∨
      (r = cwd ∧ ∀ j, 0 < j → j ≤ (normDir fsys cwd).length →
        fsys.gitStat ((normDir fsys cwd).take j ++ [".git"]) = .notFound)) := by
  have hlen : (normDir fsys cwd).reverse.length = (normDir fsys cwd).length := by
    simp
  have key := repo_walk_cases fsys.gitStat cwd (normDir fsys cwd).reverse
  have hcv : ∀ i, (((normDir fsys cwd).reverse.drop i).reverse) =
      (normDir fsys cwd).take ((normDir fsys cwd).length - i) :=
    fun i => drop_reverse_take _ i
  constructor
  · intro e he
    rcases key with ⟨h1, _⟩ | ⟨i, hi, h1, _, _⟩ | ⟨i, hi, e', h1, h2, h3⟩
    · rw [discover_repo_root] at he; rw [he] at h1; cases h1
    · rw [discover_repo_root] at he; rw [he] at h1; cases h1
    · rw [discover_repo_root] at he; rw [he] at h1
      injection h1 with h1
      subst h1
      rw [hlen] at hi
      refine ⟨(normDir fsys cwd).length - i, by omega, by omega, ?_, ?_⟩
      · rw [← hcv i]; exact h2
      · intro j hj hjle
        have := h3 ((normDir fsys cwd).length - j) (by omega)
        rw [hcv] at this
        have harg : (normDir fsys cwd).length -
            ((normDir fsys cwd).length - j) = j := by omega
        rw [harg] at this
        exact this
  · intro r hr
    rcases key with ⟨h1, h2⟩ | ⟨i, hi, h1, h2, h3⟩ | ⟨i, hi, e', h1, _, _⟩
    · rw [discover_repo_root] at hr; rw [hr] at h1
      injection h1 with h1
      refine Or.inr ⟨h1, ?_⟩
      intro j hj hjle
      have := h2 ((normDir fsys cwd).length - j) (by omega)
      rw [hcv] at this
      have harg : (normDir fsys cwd).length -
          ((normDir fsys cwd).length - j) = j := by omega
      rw [harg] at this
      exact this
    · rw [discover_repo_root] at hr; rw [hr] at h1
      injection h1 with h1
      rw [hlen] at hi
      refine Or.inl ⟨(normDir fsys cwd).length - i, by omega, by omega, ?_, ?_, ?_⟩
      · rw [← hcv i]; exact h1
      · rw [← hcv i]; exact h2
      · intro j hj hjle
        have := h3 ((normDir fsys cwd).length - j) (by omega)
        rw [hcv] at this
        have harg : (normDir fsys cwd).length -
            ((normDir fsys cwd).length - j) = j := by omega
        rw [harg] at this
        exact this
    · rw [discover_repo_root] at hr; rw [hr] at h1; cases h1

/-- Witness for C4: a `.git` marker at `/a` is found from `/a/b`, and the
success case of the characterization applies. -/
theorem claim_C4_repo_root_witness :
    ∃ k, 0 < k ∧
      k ≤ (normDir
        { norm := fun p => some p,
          gitStat := fun p => if p = ["a", ".git"] then .found else .notFound,
          listDir := fun _ => .notFound } ["a", "b"]).length ∧
      (["a"] : FsPath) = (normDir
        { norm := fun p => some p,
          gitStat := fun p => if p = ["a", ".git"] then .found else .notFound,
          listDir := fun _ => .notFound } ["a", "b"]).take k ∧
      ({ norm := fun p => some p,
         gitStat := fun p => if p = ["a", ".git"] then .found else .notFound,
         listDir := fun _ => .notFound } : DiscFs).gitStat
          ((normDir
            { norm := fun p => some p,
              gitStat := fun p => if p = ["a", ".git"] then .found else .notFound,
              listDir := fun _ => .notFound } ["a", "b"]).take k ++ [".git"]) =
        .found ∧
      ∀ j, k < j →
        j ≤ (normDir
          { norm := fun p => some p,
            gitStat := fun p => if p = ["a", ".git"] then .found else .notFound,
            listDir := fun _ => .notFound } ["a", "b"]).length →
        ({ norm := fun p => some p,
           gitStat := fun p => if p = ["a", ".git"] then .found else .notFound,
           listDir := fun _ => .notFound } : DiscFs).gitStat
            ((normDir
              { norm := fun p => some p,
                gitStat := fun p => if p = ["a", ".git"] then .found else .notFound,
                listDir := fun _ => .notFound } ["a", "b"]).take j ++ [".git"]) =
          .notFound := by
  have h := (claim_C4_repo_root
    { norm := fun p => some p,
      gitStat := fun p => if p = ["a", ".git"] then .found else .notFound,
      listDir := fun _ => .notFound } ["a", "b"]).2 ["a"] (by decide)
  rcases h with h | ⟨hcwd, _⟩
  · exact h
  · exact absurd hcwd (by decide)

/-! ### Claim C9: failure semantics -/

theorem process_file_error (fd : FsFile) (remaining : Nat) (e : String)
    (h : process_file fd remaining = .error e) :
    fd.openError = none ∧ fd.readError = some e := by
  simp only [process_file] at h
  split at h
  · simp at h
  · split at h
    · simp at h
    · next hopen =>
      refine ⟨hopen, ?_⟩
      split at h
      · next e' hread =>
        simp only [Except.error.injEq] at h
        subst h
        exact hread
      · split at h
        · simp at h
        · split at h <;> simp at h

theorem load_loop_error (ffs : FsPath → FsFile) (files : List SteeringFile) :
    ∀ remaining e, load_loop ffs files remaining = .error e →
      ∃ f ∈ files, (ffs f.path).openError = none ∧
        (ffs f.path).readError = some e := by
  induction files with
  | nil => intro remaining e h; simp [load_loop] at h
  | cons f rest ih =>
    intro remaining e h
    simp only [load_loop] at h
    cases hpf : process_file (ffs f.path) remaining with
    | error e' =>
      rw [hpf] at h
      simp only [] at h
      injection h with h
      subst h
      exact ⟨f, by simp, process_file_error _ _ _ hpf⟩
    | ok step =>
      rw [hpf] at h
      cases step with
      | omitted r =>
        simp only [] at h
        cases hrec : load_loop ffs rest remaining with
        | error e' =>
          rw [hrec] at h
          simp only [] at h
          injection h with h
          subst h
          obtain ⟨g, hg, hh⟩ := ih _ _ hrec
          exact ⟨g, by simp [hg], hh⟩
        | ok pr =>
          obtain ⟨os, ps⟩ := pr
          rw [hrec] at h
          simp at h
      | included text trunc =>
        simp only [] at h
        cases hrec : load_loop ffs rest (remaining - text.length) with
        | error e' =>
          rw [hrec] at h
          simp only [] at h
          injection h with h
          subst h
          obtain ⟨g, hg, hh⟩ := ih _ _ hrec
          exact ⟨g, by simp [hg], hh⟩
        | ok pr =>
          obtain ⟨os, ps⟩ := pr
          rw [hrec] at h
          simp at h

/-- An error of `discover_repo_root` always names a probed `.git` marker
whose stat failed with a non-NotFound error. -/
theorem discover_repo_root_error_probe (fsys : DiscFs) (cwd : FsPath) (e : String)
    (h : discover_repo_root fsys cwd = .error e) :
    ∃ k, 0 < k ∧ k ≤ (normDir fsys cwd).length ∧
      fsys.gitStat ((normDir fsys cwd).take k ++ [".git"]) = .ioErr e := by
  have key := repo_walk_cases fsys.gitStat cwd (normDir fsys cwd).reverse
  rw [discover_repo_root] at h
  rcases key with ⟨h1, _⟩ | ⟨i, hi, h1, _, _⟩ | ⟨i, hi, e', h1, h2, _⟩
  · rw [h] at h1; cases h1
  · rw [h] at h1; cases h1
  · rw [h] at h1
    injection h1 with h1
    subst h1
    have hi' : i < (normDir fsys cwd).length := by simpa using hi
    refine ⟨(normDir fsys cwd).length - i, by omega, by omega, ?_⟩
    rw [← drop_reverse_take]
    exact h2

/-- C9: `load_steering_docs` fails as a whole only when the repo-root
walk's `.git` probe hits a non-NotFound I/O error, or when the
read-to-completion of a successfully opened candidate fails; every other
per-file problem is absorbed into per-file outcomes. -/
theorem claim_C9_failure_semantics (fsys : DiscFs) (config : Config)
    (ffs : FsPath → FsFile) (e : String)
    (h : load_steering_docs fsys config ffs = .error e) :
    (∃ k, 0 < k ∧ k ≤ (normDir fsys config.cwd).length ∧
      fsys.gitStat ((normDir fsys config.cwd).take k ++ [".git"]) = .ioErr e) ∨
    (∃ discovery, discover_steering_files fsys config = .ok discovery ∧
      ∃ f ∈ discovery.files,
        (ffs f.path).openError = none ∧ (ffs f.path).readError = some e) := by
  rw [load_steering_docs] at h
  cases hd : discover_steering_files fsys config with
  | error e' =>
    rw [hd] at h
    simp only [] at h
    injection h with h
    subst h
    left
    have hroot : discover_repo_root fsys config.cwd = .error e' := by
      rw [discover_steering_files] at hd
      cases hw : discover_repo_root fsys config.cwd with
      | error e2 =>
        rw [hw] at hd
        simp only [] at hd
        injection hd with hd
        subst hd
        rfl
      | ok rr =>
        rw [hw] at hd
        simp at hd
    exact discover_repo_root_error_probe fsys config.cwd e' hroot
  | ok discovery =>
    rw [hd] at h
    simp only [] at h
    right
    refine ⟨discovery, rfl, ?_⟩
    rw [load_from_discovery] at h
    split at h
    · simp at h
    · split at h
      · next e2 hloop =>
        injection h with h
        subst h
        exact load_loop_error ffs discovery.files _ _ hloop
      · simp at h

/-- Discovery filesystem for the C9 witness: one project candidate. -/
def witnessC9DiscFs : DiscFs :=
  { norm := fun p => some p, gitStat := fun _ => .notFound,
    listDir := fun p =>
      if p = ["r", ".codex", "steering"] then
        .ok [.ok { name := "a.md", meta := .ok .file }]
      else .notFound }

/-- Configuration for the C9 witness. -/
def witnessC9Config : Config :=
  { cwd := ["r"], codex_home := ["h"], steering_enabled := true,
    steering_doc_max_bytes := 9 }

/-- File contents for the C9 witness: opening succeeds, the final read
fails. -/
def witnessC9Ffs : FsPath → FsFile :=
  fun _ => { openError := none, stat := some 1, content := [65],
             readError := some "boom" }

set_option maxRecDepth 10000 in
unseal List.merge List.mergeSort in
/-- Witness for C9: a read failure on the only candidate (after a
successful open) surfaces as the operation-level error. -/
theorem claim_C9_failure_semantics_witness :
    (∃ k, 0 < k ∧ k ≤ (normDir witnessC9DiscFs witnessC9Config.cwd).length ∧
      witnessC9DiscFs.gitStat
          ((normDir witnessC9DiscFs witnessC9Config.cwd).take k ++ [".git"]) =
        .ioErr "boom") ∨
    (∃ discovery,
      discover_steering_files witnessC9DiscFs witnessC9Config = .ok discovery ∧
      ∃ f ∈ discovery.files, (witnessC9Ffs f.path).openError = none ∧
        (witnessC9Ffs f.path).readError = some "boom") := by
  apply claim_C9_failure_semantics
  decide

/-! ### Claim C7: candidate filtering -/

/-- C7: every candidate produced by `list_md_files` comes from a
directory entry whose `symlink_metadata` file type is a regular file (so
symlinks, directories and special files never yield candidates) and whose
name's extension is exactly `md`; its scope, path and display path are
the canonical ones for that entry. -/
theorem claim_C7_candidate_filter (fsys : DiscFs) (dir : FsPath)
    (scope : SteeringScope) (f : SteeringFile)
    (h : f ∈ (list_md_files fsys dir scope).2) :
    ∃ entries, fsys.listDir dir = .ok entries ∧
      ∃ e : RawEntry, Except.ok e ∈ entries ∧ e.meta = Except.ok FType.file ∧
        extensionOf e.name = some "md" ∧
        f = { scope := scope, path := dir ++ [e.name],
              display_path := displayPathFor scope e.name } := by
  cases hls : fsys.listDir dir with
  | notFound => simp only [list_md_files, hls] at h; simp at h
  | err m => simp only [list_md_files, hls] at h; simp at h
  | ok entries =>
    simp only [list_md_files, hls] at h
    rw [List.mem_filterMap] at h
    obtain ⟨x, hx, hcand⟩ := h
    refine ⟨entries, rfl, ?_⟩
    cases x with
    | error m => simp [entry_candidate] at hcand
    | ok e =>
      refine ⟨e, hx, ?_⟩
      simp only [entry_candidate] at hcand
      cases hext : extensionOf e.name with
      | none => rw [hext] at hcand; simp at hcand
      | some ext =>
        rw [hext] at hcand
        simp only [] at hcand
        split at hcand
        · simp at hcand
        · next hmd =>
          have hmd' : ext = "md" := not_ne_iff.mp hmd
          cases hm : e.meta with
          | error m => rw [hm] at hcand; simp at hcand
          | ok ft =>
            rw [hm] at hcand
            simp only [] at hcand
            split at hcand
            · next hft =>
              subst hft
              subst hmd'
              simp only [Option.some.injEq] at hcand
              exact ⟨rfl, rfl, hcand.symm⟩
            · simp at hcand

/-- Witness for C7 at a listing holding a symlink named like a steering
file, a wrong-extension file, and one real candidate. -/
theorem claim_C7_candidate_filter_witness :
    ∃ entries,
      ({ norm := fun p => some p, gitStat := fun _ => .notFound,
         listDir := fun p =>
           if p = ["d"] then
             .ok [.ok { name := "link.md", meta := .ok .symlink },
                  .ok { name := "notes.txt", meta := .ok .file },
                  .ok { name := "real.md", meta := .ok .file }]
           else .notFound } : DiscFs).listDir ["d"] = .ok entries ∧
      ∃ e : RawEntry, Except.ok e ∈ entries ∧ e.meta = Except.ok FType.file ∧
        extensionOf e.name = some "md" ∧
        ({ scope := SteeringScope.Global, path := ["d", "real.md"],
           display_path := displayPathFor SteeringScope.Global "real.md" } :
            SteeringFile) =
          { scope := SteeringScope.Global, path := ["d"] ++ [e.name],
            display_path := displayPathFor SteeringScope.Global e.name } := by
  apply claim_C7_candidate_filter
  decide

/-! ### Claim C3: discovery order -/

theorem lexLe_trans : ∀ (xs ys zs : List Nat),
    lexLe xs ys = true → lexLe ys zs = true → lexLe xs zs = true := by
  intro xs
  induction xs with
  | nil => intro ys zs h1 h2; simp [lexLe]
  | cons x xs ih =>
    intro ys zs h1 h2
    cases ys with
    | nil => simp [lexLe] at h1
    | cons y ys =>
      cases zs with
      | nil => simp [lexLe] at h2
      | cons z zs =>
        simp only [lexLe, Bool.or_eq_true, Bool.and_eq_true,
          decide_eq_true_eq] at h1 h2 ⊢
        rcases h1 with h1 | ⟨hxy, h1⟩
        · rcases h2 with h2 | ⟨hyz, h2⟩
          · exact Or.inl (by omega)
          · exact Or.inl (by omega)
        · rcases h2 with h2 | ⟨hyz, h2⟩
          · exact Or.inl (by omega)
          · exact Or.inr ⟨by omega, ih _ _ h1 h2⟩

theorem lexLe_total : ∀ (xs ys : List Nat), (lexLe xs ys || lexLe ys xs) = true := by
  intro xs
  induction xs with
  | nil => intro ys; simp [lexLe]
  | cons x xs ih =>
    intro ys
    cases ys with
    | nil => simp [lexLe]
    | cons y ys =>
      simp only [lexLe, Bool.or_eq_true, Bool.and_eq_true, decide_eq_true_eq]
      rcases Nat.lt_trichotomy x y with h | h | h
      · exact Or.inl (Or.inl h)
      · have h2 := ih ys
        simp only [Bool.or_eq_true] at h2
        rcases h2 with h2 | h2
        · exact Or.inl (Or.inr ⟨h, h2⟩)
        · exact Or.inr (Or.inr ⟨h.symm, h2⟩)
      · exact Or.inr (Or.inl h)

theorem lexLe_antisymm : ∀ (xs ys : List Nat),
    lexLe xs ys = true → lexLe ys xs = true → xs = ys := by
  intro xs
  induction xs with
  | nil =>
    intro ys h1 h2
    cases ys with
    | nil => rfl
    | cons y ys => simp [lexLe] at h2
  | cons x xs ih =>
    intro ys h1 h2
    cases ys with
    | nil => simp [lexLe] at h1
    | cons y ys =>
      simp only [lexLe, Bool.or_eq_true, Bool.and_eq_true,
        decide_eq_true_eq] at h1 h2
      rcases h1 with h1 | ⟨hxy, h1⟩ <;> rcases h2 with h2 | ⟨hyx, h2⟩
      · exact (by omega : False).elim
      · exact (by omega : False).elim
      · exact (by omega : False).elim
      · rw [hxy, ih _ h1 h2]

theorem fileLe_trans : ∀ (a b c : SteeringFile),
    fileLe a b = true → fileLe b c = true → fileLe a c = true :=
  fun _ _ _ h1 h2 => lexLe_trans _ _ _ h1 h2

theorem fileLe_total : ∀ (a b : SteeringFile), (fileLe a b || fileLe b a) = true :=
  fun _ _ => lexLe_total _ _

/-- Sorting two permuted candidate lists with distinct display-path keys
gives the same result: the sorted order is determined by the set of
candidates, not by the order the filesystem listed them in. -/
theorem mergeSort_eq_of_perm (l₁ l₂ : List SteeringFile) (hperm : l₁.Perm l₂)
    (hnd : (l₁.map (fun f => strBytes f.display_path)).Nodup) :
    l₁.mergeSort fileLe = l₂.mergeSort fileLe := by
  have hs1 := List.sorted_mergeSort fileLe_trans fileLe_total l₁
  have hs2 := List.sorted_mergeSort fileLe_trans fileLe_total l₂
  have hp : (l₁.mergeSort fileLe).Perm (l₂.mergeSort fileLe) :=
    (List.mergeSort_perm l₁ _).trans (hperm.trans (List.mergeSort_perm l₂ _).symm)
  have hnd1 : ((l₁.mergeSort fileLe).map (fun f => strBytes f.display_path)).Nodup :=
    (((List.mergeSort_perm l₁ fileLe).map
      (fun f => strBytes f.display_path)).nodup_iff).mpr hnd
  have hnd2 : ((l₂.mergeSort fileLe).map (fun f => strBytes f.display_path)).Nodup :=
    ((hp.map (fun f => strBytes f.display_path)).nodup_iff).mp hnd1
  have hne1 : List.Pairwise
      (fun a b : SteeringFile => strBytes a.display_path ≠ strBytes b.display_path)
      (l₁.mergeSort fileLe) := by
    simpa [List.Nodup, List.pairwise_map] using hnd1
  have hne2 : List.Pairwise
      (fun a b : SteeringFile => strBytes a.display_path ≠ strBytes b.display_path)
      (l₂.mergeSort fileLe) := by
    simpa [List.Nodup, List.pairwise_map] using hnd2
  haveI : IsAntisymm SteeringFile
      (fun a b => fileLe a b = true ∧
        strBytes a.display_path ≠ strBytes b.display_path) :=
    ⟨fun a b hab hba => absurd (lexLe_antisymm _ _ hab.1 hba.1) hab.2⟩
  exact List.eq_of_perm_of_sorted hp (hs1.and hne1) (hs2.and hne2)

/-- Two directory listings that agree up to the order of their entries. -/
def listingPerm : DirListing → DirListing → Prop
  | .ok e1, .ok e2 => e1.Perm e2
  | l1, l2 => l1 = l2

theorem list_md_files_perm (fsys fsys' : DiscFs) (dir : FsPath)
    (scope : SteeringScope)
    (h : listingPerm (fsys.listDir dir) (fsys'.listDir dir)) :
    ((list_md_files fsys dir scope).2).Perm
      ((list_md_files fsys' dir scope).2) := by
  cases h1 : fsys.listDir dir <;> cases h2 : fsys'.listDir dir <;>
    rw [h1, h2] at h <;> simp only [listingPerm] at h
  · simp [list_md_files, h1, h2]
  · simp at h
  · simp at h
  · simp at h
  · simp [list_md_files, h1, h2]
  · simp at h
  · simp at h
  · simp at h
  · simp only [list_md_files, h1, h2]
    exact List.Perm.filterMap _ h

theorem entry_candidate_scope (scope : SteeringScope) (dir : FsPath)
    (x : Except String RawEntry) (f : SteeringFile)
    (h : entry_candidate scope dir x = some f) : f.scope = scope := by
  cases x with
  | error m => simp [entry_candidate] at h
  | ok e =>
    simp only [entry_candidate] at h
    cases hext : extensionOf e.name with
    | none => rw [hext] at h; simp at h
    | some ext =>
      rw [hext] at h
      simp only [] at h
      split at h
      · simp at h
      · cases hm : e.meta with
        | error m => rw [hm] at h; simp at h
        | ok ft =>
          rw [hm] at h
          simp only [] at h
          split at h
          · simp only [Option.some.injEq] at h
            rw [← h]
          · simp at h

theorem list_md_files_scope (fsys : DiscFs) (dir : FsPath)
    (scope : SteeringScope) (f : SteeringFile)
    (h : f ∈ (list_md_files fsys dir scope).2) : f.scope = scope := by
  cases h1 : fsys.listDir dir <;> simp only [list_md_files, h1] at h
  · simp at h
  · simp at h
  · rw [List.mem_filterMap] at h
    obtain ⟨x, _, hc⟩ := h
    exact entry_candidate_scope _ _ _ _ hc

/-- C3: the discovered file list is the global-scope candidates sorted by
display path followed by the project-scope candidates sorted by display
path (so project entries always come after all global entries), and — as
long as display-path keys are distinct — it does not depend on the order
in which the filesystem lists directory entries. -/
theorem claim_C3_discovery_order (fsys : DiscFs) (config : Config)
    (discovery : SteeringDiscovery)
    (hdisc : discover_steering_files fsys config = .ok discovery) :
    (∃ g p, discovery.files = g ++ p ∧
      g.Perm (list_md_files fsys discovery.global_dir SteeringScope.Global).2 ∧
      p.Perm (list_md_files fsys discovery.project_dir SteeringScope.Project).2 ∧
      List.Pairwise (fun a b => fileLe a b = true) g ∧
      List.Pairwise (fun a b => fileLe a b = true) p ∧
      (∀ f ∈ g, f.scope = SteeringScope.Global) ∧
      (∀ f ∈ p, f.scope = SteeringScope.Project)) ∧
    (∀ fsys' : DiscFs, fsys'.norm = fsys.norm → fsys'.gitStat = fsys.gitStat →
      (∀ d, listingPerm (fsys.listDir d) (fsys'.listDir d)) →
      ((list_md_files fsys discovery.global_dir SteeringScope.Global).2.map
        (fun f => strBytes f.display_path)).Nodup →
      ((list_md_files fsys discovery.project_dir SteeringScope.Project).2.map
        (fun f => strBytes f.display_path)).Nodup →
      ∀ discovery', discover_steering_files fsys' config = .ok discovery' →
        discovery'.files = discovery.files) := by
  rw [discover_steering_files] at hdisc
  cases hw : discover_repo_root fsys config.cwd with
  | error e => rw [hw] at hdisc; simp at hdisc
  | ok rr =>
    rw [hw] at hdisc
    simp only [Except.ok.injEq] at hdisc
    subst hdisc
    constructor
    · refine ⟨(list_md_files fsys (config.codex_home ++ [GLOBAL_STEERING_DIR])
          SteeringScope.Global).2.mergeSort fileLe,
        (list_md_files fsys (rr ++ PROJECT_STEERING_DIR)
          SteeringScope.Project).2.mergeSort fileLe,
        rfl, List.mergeSort_perm _ _, List.mergeSort_perm _ _,
        List.sorted_mergeSort fileLe_trans fileLe_total _,
        List.sorted_mergeSort fileLe_trans fileLe_total _, ?_, ?_⟩
      · intro f hf
        exact list_md_files_scope _ _ _ f ((List.mergeSort_perm _ _).mem_iff.mp hf)
      · intro f hf
        exact list_md_files_scope _ _ _ f ((List.mergeSort_perm _ _).mem_iff.mp hf)
    · intro fsys' hnorm hgit hlist hgnd hpnd discovery' hdisc'
      have hroot' : discover_repo_root fsys' config.cwd =
          discover_repo_root fsys config.cwd := by
        simp [discover_repo_root, normDir, hnorm, hgit]
      rw [discover_steering_files, hroot', hw] at hdisc'
      simp only [Except.ok.injEq] at hdisc'
      subst hdisc'
      simp only []
      have hg := mergeSort_eq_of_perm _ _
        (list_md_files_perm fsys fsys'
          (config.codex_home ++ [GLOBAL_STEERING_DIR]) SteeringScope.Global
          (hlist _)) hgnd
      have hp := mergeSort_eq_of_perm _ _
        (list_md_files_perm fsys fsys' (rr ++ PROJECT_STEERING_DIR)
          SteeringScope.Project (hlist _)) hpnd
      rw [← hg, ← hp]

/-- Discovery filesystem for the C3 witness: both steering directories
exist and list their `.md` files in non-sorted order. -/
def witnessC3DiscFs : DiscFs :=
  { norm := fun p => some p,
    gitStat := fun p => if p = ["r", ".git"] then .found else .notFound,
    listDir := fun p =>
      if p = ["h", "steering"] then
        .ok [.ok { name := "b.md", meta := .ok .file },
             .ok { name := "a.md", meta := .ok .file }]
      else if p = ["r", ".codex", "steering"] then
        .ok [.ok { name := "d.md", meta := .ok .file },
             .ok { name := "c.md", meta := .ok .file }]
      else .notFound }

/-- Configuration for the C3 witness. -/
def witnessC3Config : Config :=
  { cwd := ["r"], codex_home := ["h"], steering_enabled := true,
    steering_doc_max_bytes := 100 }

/-- The discovery result of the C3 witness: sorted globals, then sorted
project files. -/
def witnessC3Discovery : SteeringDiscovery :=
  { codex_home := ["h"], repo_root := ["r"], global_dir := ["h", "steering"],
    project_dir := ["r", ".codex", "steering"],
    files :=
      [{ scope := .Global, path := ["h", "steering", "a.md"],
         display_path := "$CODEX_HOME/steering/a.md" },
       { scope := .Global, path := ["h", "steering", "b.md"],
         display_path := "$CODEX_HOME/steering/b.md" },
       { scope := .Project, path := ["r", ".codex", "steering", "c.md"],
         display_path := ".codex/steering/c.md" },
       { scope := .Project, path := ["r", ".codex", "steering", "d.md"],
         display_path := ".codex/steering/d.md" }],
    global_dir_state := .Present, project_dir_state := .Present }

set_option maxRecDepth 100000 in
unseal List.merge List.mergeSort in
/-- Witness for C3 at a concrete two-directory layout with unsorted
listings. -/
theorem claim_C3_discovery_order_witness :
    (∃ g p, witnessC3Discovery.files = g ++ p ∧
      g.Perm (list_md_files witnessC3DiscFs witnessC3Discovery.global_dir
        SteeringScope.Global).2 ∧
      p.Perm (list_md_files witnessC3DiscFs witnessC3Discovery.project_dir
        SteeringScope.Project).2 ∧
      List.Pairwise (fun a b => fileLe a b = true) g ∧
      List.Pairwise (fun a b => fileLe a b = true) p ∧
      (∀ f ∈ g, f.scope = SteeringScope.Global) ∧
      (∀ f ∈ p, f.scope = SteeringScope.Project)) ∧
    (∀ fsys' : DiscFs, fsys'.norm = witnessC3DiscFs.norm →
      fsys'.gitStat = witnessC3DiscFs.gitStat →
      (∀ d, listingPerm (witnessC3DiscFs.listDir d) (fsys'.listDir d)) →
      ((list_md_files witnessC3DiscFs witnessC3Discovery.global_dir
        SteeringScope.Global).2.map (fun f => strBytes f.display_path)).Nodup →
      ((list_md_files witnessC3DiscFs witnessC3Discovery.project_dir
        SteeringScope.Project).2.map (fun f => strBytes f.display_path)).Nodup →
      ∀ discovery', discover_steering_files fsys' witnessC3Config = .ok discovery' →
        discovery'.files = witnessC3Discovery.files) :=
  claim_C3_discovery_order witnessC3DiscFs witnessC3Config witnessC3Discovery
    (by decide)

end Steering
